import Mathlib

/-!
# Verification of the SuperDealsPOGen core (src/backend.py)

Shallow embedding of the purchase-order generator's core:

* `extract_base_name_and_size` — the size-suffix extractor (backend.py lines 24-38),
* `load_orders` — the row aggregator (backend.py lines 41-70), modelled on the
  already-parsed CSV rows `(Lineitem name, Lineitem quantity)`,
* `generate_pdf_po` — the document composer (backend.py lines 73-297), modelled as
  the structural content of the blocks it appends to the story (text of paragraphs
  and table cells); pixel geometry, colors and fonts are presentation details the
  spec leaves to the renderer.

Strings are modelled over their character lists; whitespace is the ASCII range of
Python's `str.strip` / regex `\s` (the claims only involve ASCII data).
-/

namespace POGen

/-- Whitespace characters of Python's `str.strip` and regex `\s` (ASCII range). -/
def isWs (c : Char) : Bool :=
  c = ' ' || c = '\t' || c = '\n' || c = '\r' || c = '\x0b' || c = '\x0c'

/-- Drop trailing whitespace. -/
def dropTrailWs (l : List Char) : List Char :=
  (l.reverse.dropWhile isWs).reverse

/-- Python `str.strip` on a character list. -/
def trimChars (l : List Char) : List Char :=
  dropTrailWs (l.dropWhile isWs)

/-- Python `str.strip`. -/
def pyStrip (s : String) : String :=
  String.mk (trimChars s.data)

/-- Does `l` (in full) match the size-token regex `\d*X*[SML]+`?
The three character classes are disjoint, so the greedy backtracking match
of the regex equals this three-phase scan. -/
def isSizeTok (l : List Char) : Bool :=
  let l1 := l.dropWhile (fun c => c.isDigit)
  let l2 := l1.dropWhile (fun c => c = 'X')
  !l2.isEmpty && l2.all (fun c => c = 'S' || c = 'M' || c = 'L')

/-- `re.search` of `\s*SEP\s*(\d*X*[SML]+)\s*$` on `l`: Python finds the leftmost
match; because the pattern is anchored at the end of the string and token
characters are neither separators nor whitespace, a match exists at a separator
character exactly when everything after it strips down to a size token, and at
most one separator position qualifies.  Returns the text before the separator
and the captured token. -/
def findSepMatch (sep : Char) : List Char → Option (List Char × List Char)
  | [] => none
  | c :: rest =>
    if c = sep && isSizeTok (trimChars rest) then
      some ([], trimChars rest)
    else
      match findSepMatch sep rest with
      | some (pre, tok) => some (c :: pre, tok)
      | none => none

/-- `extract_base_name_and_size` on the character list: try the `-` pattern,
then the `/` pattern; on a match the base is the part before the separator with
surrounding whitespace stripped (`re.sub` removes the matched suffix, then
`.strip()`), else return the input unchanged with no size. -/
def extractCore (l : List Char) : List Char × Option (List Char) :=
  match findSepMatch '-' l with
  | some (pre, tok) => (trimChars pre, some tok)
  | none =>
    match findSepMatch '/' l with
    | some (pre, tok) => (trimChars pre, some tok)
    | none => (l, none)

/-- backend.py `extract_base_name_and_size`. -/
def extract_base_name_and_size (s : String) : String × Option String :=
  match extractCore s.data with
  | (b, some t) => (String.mk b, some (String.mk t))
  | (_, none) => (s, none)

/-- One step of Python's integer-literal digit scan: digits with single
underscores allowed between digits (`digit (["_"] digit)*`), accumulating the
value; `acc` holds the value of the digits already read. -/
def digitsVal (acc : Nat) : List Char → Option Nat
  | [] => some acc
  | '_' :: c :: rest =>
    if c.isDigit then digitsVal (acc * 10 + (c.toNat - 48)) rest else none
  | ['_'] => none
  | c :: rest =>
    if c.isDigit then digitsVal (acc * 10 + (c.toNat - 48)) rest else none

/-- Python `int(str)` (ASCII alphabet): strip whitespace, optional sign, then a
digit run with optional single underscores between digits. -/
def parsePyInt (s : String) : Option Int :=
  match trimChars s.data with
  | '+' :: c :: rest =>
    if c.isDigit then (digitsVal (c.toNat - 48) rest).map (fun n => (n : Int)) else none
  | '-' :: c :: rest =>
    if c.isDigit then (digitsVal (c.toNat - 48) rest).map (fun n => -(n : Int)) else none
  | c :: rest =>
    if c.isDigit then (digitsVal (c.toNat - 48) rest).map (fun n => (n : Int)) else none
  | [] => none

/-- Inner mapping of `load_orders`' result: size token → summed quantity,
as an insertion-ordered association list (Python dict). -/
abbrev SizeMap := List (String × Int)

/-- `load_orders`' result: base name → size map (Python dict of defaultdicts). -/
abbrev Orders := List (String × SizeMap)

/-- `products[base][size] += q` on the inner dict (`defaultdict(int)`:
a missing key starts at 0; a new key is appended in insertion order). -/
def bumpSize (sz : String) (q : Int) : SizeMap → SizeMap
  | [] => [(sz, q)]
  | (k, v) :: rest => if k = sz then (k, v + q) :: rest else (k, v) :: bumpSize sz q rest

/-- `products[base][size] += q` on the outer dict. -/
def bumpOrders (b sz : String) (q : Int) : Orders → Orders
  | [] => [(b, bumpSize sz q [])]
  | (k, m) :: rest => if k = b then (k, bumpSize sz q m) :: rest else (k, m) :: bumpOrders b sz q rest

/-- The body of `load_orders`' row loop (backend.py lines 51-68): trim the name
and quantity text, skip the row if either is empty or the quantity does not
parse as an integer, otherwise extract the size and accumulate under the size
token, or under the `'N/A'` sentinel when no size was detected (Python's
`if size:` is falsy for `None` and for the empty string). -/
def processRow (acc : Orders) (row : String × String) : Orders :=
  let item_name := pyStrip row.1
  let quantity_str := pyStrip row.2
  if item_name = "" || quantity_str = "" then acc
  else
    match parsePyInt quantity_str with
    | none => acc
    | some quantity =>
      let r := extract_base_name_and_size item_name
      match r.2 with
      | some size =>
        if size ≠ "" then bumpOrders r.1 size quantity acc
        else bumpOrders r.1 "N/A" quantity acc
      | none => bumpOrders r.1 "N/A" quantity acc

/-- backend.py `load_orders`, on the sequence of already-parsed CSV rows
`(Lineitem name, Lineitem quantity)`. -/
def load_orders (rows : List (String × String)) : Orders :=
  rows.foldl processRow []

/-- Look up a size bucket in a size map (`none` = key absent). -/
def sizeVal (sz : String) (m : SizeMap) : Option Int :=
  (m.find? (fun p => p.1 = sz)).map Prod.snd

/-- Look up (base name, size) in an aggregation (`none` = absent). -/
def ordersVal (a : Orders) (b sz : String) : Option Int :=
  match a.find? (fun p => p.1 = b) with
  | some p => sizeVal sz p.2
  | none => none

/-! ## The document composer (backend.py `generate_pdf_po`) -/

/-- Python's `<` on strings: lexicographic comparison of code points
(a proper non-empty extension is greater). -/
def charListLt : List Char → List Char → Bool
  | _, [] => false
  | [], _ :: _ => true
  | a :: as, b :: bs =>
    if a.toNat < b.toNat then true
    else if b.toNat < a.toNat then false
    else charListLt as bs

theorem charListLt_asymm : ∀ a b, charListLt a b = true → charListLt b a = false := by
  intro a
  induction a with
  | nil => intro b h; cases b <;> simp [charListLt]
  | cons x xs ih =>
    intro b h
    cases b with
    | nil => simp [charListLt] at h
    | cons y ys =>
      simp only [charListLt] at h ⊢
      by_cases h1 : x.toNat < y.toNat
      · simp only [if_pos h1]
        have : ¬ y.toNat < x.toNat := by omega
        simp [this, if_neg this, h1]
      · by_cases h2 : y.toNat < x.toNat
        · simp [h1, h2] at h
        · simp only [if_neg h1, if_neg h2] at h ⊢
          exact ih ys h

theorem charListLt_total_eq : ∀ a b, charListLt a b = false → charListLt b a = false → a = b := by
  intro a
  induction a with
  | nil =>
    intro b ha _
    cases b with
    | nil => rfl
    | cons y ys => simp [charListLt] at ha
  | cons x xs ih =>
    intro b ha hb
    cases b with
    | nil => simp [charListLt] at hb
    | cons y ys =>
      simp only [charListLt] at ha hb
      by_cases h1 : x.toNat < y.toNat
      · simp [h1] at ha
      · by_cases h2 : y.toNat < x.toNat
        · simp [h1, h2] at hb
        · simp only [if_neg h1, if_neg h2] at ha hb
          have hxy : x = y := Char.ext (UInt32.ext (by
            simp only [Char.toNat] at h1 h2
            omega))
          rw [hxy, ih ys ha hb]

theorem charListLt_trans :
    ∀ a b c, charListLt a b = true → charListLt b c = true → charListLt a c = true := by
  intro a
  induction a with
  | nil =>
    intro b c hab hbc
    cases c with
    | nil => cases b <;> simp [charListLt] at *
    | cons z zs => simp [charListLt]
  | cons x xs ih =>
    intro b c hab hbc
    cases b with
    | nil => simp [charListLt] at hab
    | cons y ys =>
      cases c with
      | nil => simp [charListLt] at hbc
      | cons z zs =>
        simp only [charListLt] at hab hbc ⊢
        by_cases h1 : x.toNat < y.toNat <;> by_cases h2 : y.toNat < z.toNat
        · have : x.toNat < z.toNat := by omega
          simp [this]
        · by_cases h3 : z.toNat < y.toNat
          · simp [h1, h2, h3] at hbc
          · have : x.toNat < z.toNat := by omega
            simp [this]
        · by_cases h3 : y.toNat < x.toNat
          · simp [h1, h3] at hab
          · have : x.toNat < z.toNat := by omega
            simp [this]
        · by_cases h3 : y.toNat < x.toNat
          · simp [h1, h3] at hab
          · by_cases h4 : z.toNat < y.toNat
            · simp [h2, h4] at hbc
            · have hxz : ¬ x.toNat < z.toNat := by omega
              have hzx : ¬ z.toNat < x.toNat := by omega
              simp only [if_neg h1, if_neg h3] at hab
              simp only [if_neg h2, if_neg h4] at hbc
              simp only [if_neg hxz, if_neg hzx]
              exact ih ys zs hab hbc

/-- Python `a < b` on strings. -/
def pyStrLt (a b : String) : Bool := charListLt a.data b.data

/-- The sort key of backend.py lines 263-266:
`(len(x[0]) if x[0] != 'N/A' else 999, x[0])`. -/
def sizeSortKey (s : String) : Nat × String :=
  (if s = "N/A" then 999 else s.length, s)

/-- Python's tuple comparison `sizeSortKey a <= sizeSortKey b`
(numeric first component, then lexicographic string order). -/
def keyLEb (a b : String) : Bool :=
  Nat.blt (sizeSortKey a).1 (sizeSortKey b).1 ||
    (Nat.beq (sizeSortKey a).1 (sizeSortKey b).1 && !(pyStrLt b a))

/-- `keyLEb` lifted to dict items, as the sorting relation. -/
def rowLE (x y : String × Int) : Prop := keyLEb x.1 y.1 = true

instance : DecidableRel rowLE := fun x y =>
  inferInstanceAs (Decidable (keyLEb x.1 y.1 = true))

theorem keyLEb_total (a b : String) : keyLEb a b = true ∨ keyLEb b a = true := by
  unfold keyLEb
  rcases Nat.lt_trichotomy (sizeSortKey a).1 (sizeSortKey b).1 with h | h | h
  · left
    simp [Nat.blt_eq, h]
  · rcases hlt : pyStrLt b a with _ | _
    · left
      simp [Nat.blt_eq, Nat.beq_eq, h, hlt]
    · right
      have : pyStrLt a b = false := charListLt_asymm _ _ hlt
      simp [Nat.blt_eq, Nat.beq_eq, h, this]
  · right
    simp [Nat.blt_eq, h]

theorem keyLEb_trans (a b c : String) (hab : keyLEb a b = true) (hbc : keyLEb b c = true) :
    keyLEb a c = true := by
  unfold keyLEb at *
  simp only [Bool.or_eq_true, Bool.and_eq_true, Nat.blt_eq, Nat.beq_eq,
    Bool.not_eq_true', decide_eq_true_eq] at hab hbc ⊢
  rcases hab with h1 | ⟨h1, h1s⟩ <;> rcases hbc with h2 | ⟨h2, h2s⟩
  · exact Or.inl (h1.trans h2)
  · exact Or.inl (h2 ▸ h1)
  · exact Or.inl (h1 ▸ h2)
  · refine Or.inr ⟨h1.trans h2, ?_⟩
    by_cases hab' : charListLt a.data b.data = true
    · cases hca : charListLt c.data a.data
      · exact hca ▸ rfl
      · exact absurd (charListLt_trans _ _ _ hca hab') (by
          simpa [pyStrLt] using h2s)
    · have hba : charListLt b.data a.data = false := by simpa [pyStrLt] using h1s
      have hdata : a.data = b.data :=
        charListLt_total_eq _ _ (Bool.eq_false_iff.mpr hab') hba
      show charListLt c.data a.data = false
      rw [hdata]
      simpa [pyStrLt] using h2s

instance : IsTotal (String × Int) rowLE :=
  ⟨fun a b => keyLEb_total a.1 b.1⟩

instance : IsTrans (String × Int) rowLE :=
  ⟨fun a b c => keyLEb_trans a.1 b.1 c.1⟩

/-- `sorted(sizes_dict.items(), key=...)` of backend.py lines 263-266.
Python's `sorted` is a stable sort by a total preorder; `List.insertionSort`
with the reflexive total preorder `rowLE` is such a stable sort. -/
def sortSizes (m : SizeMap) : SizeMap :=
  m.insertionSort rowLE

/-- backend.py line 269: `"No Size" if size == 'N/A' else size`. -/
def sizeLabel (s : String) : String :=
  if s = "N/A" then "No Size" else s

/-- Python `str` on an int. -/
def intStr (q : Int) : String := toString q

/-- backend.py line 272: `sum(sizes_dict.values())`. -/
def totalQty (m : SizeMap) : Int := (m.map Prod.snd).sum

/-- The cell text of `size_data` (backend.py lines 262-273): header row,
one row per size bucket in sorted order (sentinel relabelled "No Size"),
then the TOTAL row. -/
def sizeTableRows (m : SizeMap) : List (List String) :=
  [["Size", "Quantity"]]
    ++ (sortSizes m).map (fun p => [sizeLabel p.1, intStr p.2])
    ++ [["TOTAL", intStr (totalQty m)]]

/-- A contact-info record as passed from the UI: a Python dict of string
fields, modelled as an association list (`d['k']` = `getField d "k"`,
raising `KeyError`, i.e. `none`, when the key is absent). -/
abbrev ContactInfo := List (String × String)

/-- Python `d[k]` / `d.get(k)`: first binding of `k`, if any. -/
def getField (d : ContactInfo) (k : String) : Option String :=
  (d.find? (fun p => p.1 = k)).map Prod.snd

/-- The issuer block (backend.py lines 151-157): five lines, each field read
with `dict[...]` (KeyError on an absent key; empty values render as blank
lines, they are not omitted). -/
def companyText (ci : ContactInfo) : Option (List String) := do
  let n ← getField ci "name"
  let a ← getField ci "address"
  let c ← getField ci "city"
  let p ← getField ci "phone"
  let f ← getField ci "fax"
  pure ["<b>" ++ n ++ "</b>", a, c, "Phone: " ++ p, "Fax: " ++ f]

/-- The vendor panel lines (backend.py lines 201-209): name, website (omitted
entirely when the value is falsy, i.e. empty), address, city, phone.  Every
field, website included, is read with `dict[...]` and raises on an absent key. -/
def vendorBlock (vi : ContactInfo) : Option (List String) := do
  let n ← getField vi "name"
  let w ← getField vi "website"
  let a ← getField vi "address"
  let c ← getField vi "city"
  let p ← getField vi "phone"
  pure (["<b>" ++ n ++ "</b>"] ++ (if w ≠ "" then [w] else []) ++ [a, c, "Phone: " ++ p])

/-- The ship-to panel lines (backend.py lines 211-219): attn, company,
address, city (read with `.get`, line omitted when absent or empty), phone. -/
def shipToBlock (si : ContactInfo) : Option (List String) := do
  let a ← getField si "attn"
  let co ← getField si "company"
  let ad ← getField si "address"
  let p ← getField si "phone"
  let cityLine :=
    match getField si "city" with
    | some c => if c ≠ "" then [c] else []
    | none => []
  pure (["Attn: " ++ a, co, ad] ++ cityLine ++ ["Phone: " ++ p])

/-- The logo input as the composer distinguishes it (backend.py lines 129-148):
no usable path, a path whose image load raises, or a loaded image. -/
inductive LogoSrc
  | absent
  | failed
  | loaded
deriving DecidableEq

/-- One visual block of the composed story, by its structural content. -/
inductive Block
  | spacer
  | image
  | para (text : String)
deriving DecidableEq

/-- The left header cell's logo slot: a spacer placeholder, the
"[Logo Error]" paragraph, or the image. -/
def logoBlocks : LogoSrc → List Block
  | .absent => [.spacer]
  | .failed => [.para "[Logo Error]"]
  | .loaded => [.image]

/-- The structural content of the composed purchase-order document. -/
structure PODoc where
  logo : List Block
  companyLines : List String
  title : String
  dateRow : String × String
  poRow : String × String
  vendorLines : List String
  shipToLines : List String
  productBlocks : List (String × List (List String))
deriving DecidableEq

/-- backend.py `generate_pdf_po`, as the structural content of the document it
builds.  `po_date` and `timestamp` stand for the two `datetime.now()` readings
of lines 163-164; the products are emitted in the caller-supplied order, each
with its `size_data` table.  The result is `none` when a `dict[...]` field
access raises `KeyError`. -/
def generate_pdf_po (products_data : List (String × SizeMap))
    (company_info vendor_info ship_to_info : ContactInfo)
    (logo : LogoSrc) (po_date timestamp : String) : Option PODoc := do
  let cText ← companyText company_info
  let vLines ← vendorBlock vendor_info
  let sLines ← shipToBlock ship_to_info
  pure {
    logo := logoBlocks logo
    companyLines := cText
    title := "Purchase Order"
    dateRow := ("Date", po_date)
    poRow := ("P.O. #", timestamp)
    vendorLines := vLines
    shipToLines := sLines
    productBlocks := products_data.map (fun p => (p.1, sizeTableRows p.2)) }

/-- Erase the two timestamp-derived fields (the only time-varying content). -/
def eraseTimestamps (d : PODoc) : PODoc :=
  { d with dateRow := ("Date", ""), poRow := ("P.O. #", "") }

/-! ## Specification view of the aggregation

`rowKey` is the contribution of a single row exactly as `processRow` computes
it; `specVal` re-expresses the aggregated value of one (base, size) bucket as
the sum of the row contributions, which the fold lemmas below connect to
`load_orders`. -/

/-- The `(base name, size bucket, quantity)` contribution of one row, `none`
when the row is dropped. -/
def rowKey (row : String × String) : Option (String × String × Int) :=
  let item_name := pyStrip row.1
  let quantity_str := pyStrip row.2
  if item_name = "" || quantity_str = "" then none
  else
    match parsePyInt quantity_str with
    | none => none
    | some quantity =>
      let r := extract_base_name_and_size item_name
      match r.2 with
      | some size =>
        if size ≠ "" then some (r.1, size, quantity)
        else some (r.1, "N/A", quantity)
      | none => some (r.1, "N/A", quantity)

/-- The quantities the rows contribute to bucket `(b, sz)`, in row order. -/
def contribs (rows : List (String × String)) (b sz : String) : List Int :=
  (rows.filterMap rowKey).filterMap
    (fun t => if b = t.1 ∧ sz = t.2.1 then some t.2.2 else none)

/-- The aggregated value of bucket `(b, sz)`: absent when no row contributes,
else the sum of the contributions. -/
def specVal (rows : List (String × String)) (b sz : String) : Option Int :=
  if contribs rows b sz = [] then none else some (contribs rows b sz).sum

/-- Pointwise merge of two bucket values (absent = contributes nothing,
present on either side makes the merged bucket present). -/
def mergeOpt : Option Int → Option Int → Option Int
  | none, none => none
  | a, b => some (a.getD 0 + b.getD 0)

theorem mergeOpt_none_left (x : Option Int) : mergeOpt none x = x := by
  cases x <;> simp [mergeOpt]

theorem mergeOpt_none_right (x : Option Int) : mergeOpt x none = x := by
  cases x <;> simp [mergeOpt]

theorem mergeOpt_assoc (x y z : Option Int) :
    mergeOpt (mergeOpt x y) z = mergeOpt x (mergeOpt y z) := by
  cases x <;> cases y <;> cases z <;> simp [mergeOpt, add_assoc]

theorem processRow_eq_rowKey (acc : Orders) (row : String × String) :
    processRow acc row =
      match rowKey row with
      | none => acc
      | some t => bumpOrders t.1 t.2.1 t.2.2 acc := by
  unfold processRow rowKey
  simp only
  split
  · rfl
  · cases hp : parsePyInt (pyStrip row.2) with
    | none => rfl
    | some q =>
      simp only
      cases hs : (extract_base_name_and_size (pyStrip row.1)).2 with
      | none => simp [hs]
      | some size =>
        by_cases hsz : size = "" <;> simp [hs, hsz]

theorem mergeOpt_some_right (x : Option Int) (q : Int) :
    mergeOpt x (some q) = some (x.getD 0 + q) := by
  cases x <;> simp [mergeOpt]

theorem sizeVal_cons (k : String) (v : Int) (m : SizeMap) (sz : String) :
    sizeVal sz ((k, v) :: m) = if k = sz then some v else sizeVal sz m := by
  by_cases h : k = sz <;> simp [sizeVal, List.find?_cons, h]

theorem ordersVal_cons (k : String) (m : SizeMap) (a : Orders) (b sz : String) :
    ordersVal ((k, m) :: a) b sz = if k = b then sizeVal sz m else ordersVal a b sz := by
  by_cases h : k = b <;> simp [ordersVal, List.find?_cons, h]

theorem sizeVal_bumpSize (sz : String) (q : Int) (m : SizeMap) (sz' : String) :
    sizeVal sz' (bumpSize sz q m) =
      if sz' = sz then some ((sizeVal sz m).getD 0 + q) else sizeVal sz' m := by
  induction m with
  | nil =>
    simp only [bumpSize]
    rw [sizeVal_cons]
    by_cases h : sz' = sz
    · subst h
      simp [sizeVal]
    · rw [if_neg (fun hh => h hh.symm), if_neg h]
  | cons p rest ih =>
    obtain ⟨k, v⟩ := p
    simp only [bumpSize]
    by_cases hk : k = sz
    · subst hk
      rw [if_pos rfl, sizeVal_cons]
      by_cases h : sz' = k
      · subst h
        rw [if_pos rfl, if_pos rfl, sizeVal_cons, if_pos rfl]
        simp
      · rw [if_neg (fun hh => h hh.symm), if_neg h, sizeVal_cons,
          if_neg (fun hh => h hh.symm)]
    · rw [if_neg hk, sizeVal_cons]
      by_cases h : k = sz'
      · rw [if_pos h, if_neg (fun hh => hk (h.trans hh)), sizeVal_cons, if_pos h]
      · rw [if_neg h, ih]
        by_cases h2 : sz' = sz
        · rw [if_pos h2, if_pos h2, sizeVal_cons, if_neg hk]
        · rw [if_neg h2, if_neg h2, sizeVal_cons, if_neg h]

theorem ordersVal_bumpOrders (b sz : String) (q : Int) (a : Orders) (b' sz' : String) :
    ordersVal (bumpOrders b sz q a) b' sz' =
      if b' = b ∧ sz' = sz then some ((ordersVal a b sz).getD 0 + q)
      else ordersVal a b' sz' := by
  induction a with
  | nil =>
    simp only [bumpOrders]
    rw [ordersVal_cons]
    by_cases hb : b = b'
    · rw [if_pos hb, sizeVal_bumpSize]
      by_cases hs : sz' = sz
      · rw [if_pos hs, if_pos ⟨hb.symm, hs⟩]
        simp [ordersVal, sizeVal]
      · rw [if_neg hs, if_neg (fun hh => hs hh.2)]
        simp [sizeVal, ordersVal]
    · rw [if_neg hb, if_neg (fun hh => hb hh.1.symm)]
  | cons p rest ih =>
    obtain ⟨k, m⟩ := p
    simp only [bumpOrders]
    by_cases hk : k = b
    · rw [if_pos hk, ordersVal_cons]
      by_cases hb : k = b'
      · rw [if_pos hb, sizeVal_bumpSize]
        by_cases hs : sz' = sz
        · rw [if_pos hs, if_pos ⟨hb.symm.trans hk, hs⟩, ordersVal_cons, if_pos hk]
        · rw [if_neg hs, if_neg (fun hh => hs hh.2), ordersVal_cons, if_pos hb]
      · rw [if_neg hb, if_neg (fun hh => hb (hk ▸ hh.1.symm)), ordersVal_cons, if_neg hb]
    · rw [if_neg hk, ordersVal_cons]
      by_cases hb : k = b'
      · rw [if_pos hb, if_neg (fun hh => hk (hb.trans hh.1)), ordersVal_cons, if_pos hb]
      · rw [if_neg hb, ih]
        by_cases hcond : b' = b ∧ sz' = sz
        · rw [if_pos hcond, if_pos hcond, ordersVal_cons, if_neg hk]
        · rw [if_neg hcond, if_neg hcond, ordersVal_cons, if_neg hb]

/-- The value one row contributes to bucket `(b, sz)`. -/
def rowContrib (row : String × String) (b sz : String) : Option Int :=
  match rowKey row with
  | some t => if b = t.1 ∧ sz = t.2.1 then some t.2.2 else none
  | none => none

theorem contribs_cons (r : String × String) (rs : List (String × String)) (b sz : String) :
    contribs (r :: rs) b sz =
      match rowContrib r b sz with
      | some q => q :: contribs rs b sz
      | none => contribs rs b sz := by
  unfold contribs rowContrib
  cases h : rowKey r with
  | none => simp [List.filterMap_cons, h]
  | some t =>
    simp only [List.filterMap_cons, h]
    by_cases hc : b = t.1 ∧ sz = t.2.1
    · simp [hc]
    · simp [hc]

theorem specVal_cons (r : String × String) (rs : List (String × String)) (b sz : String) :
    specVal (r :: rs) b sz = mergeOpt (rowContrib r b sz) (specVal rs b sz) := by
  unfold specVal
  rw [contribs_cons]
  cases hc : rowContrib r b sz with
  | none => simp [mergeOpt_none_left]
  | some q =>
    by_cases h : contribs rs b sz = []
    · simp [h, mergeOpt]
    · simp [h, mergeOpt]

theorem ordersVal_processRow (acc : Orders) (row : String × String) (b sz : String) :
    ordersVal (processRow acc row) b sz =
      mergeOpt (ordersVal acc b sz) (rowContrib row b sz) := by
  rw [processRow_eq_rowKey]
  unfold rowContrib
  cases h : rowKey row with
  | none => simp [mergeOpt_none_right]
  | some t =>
    simp only
    rw [ordersVal_bumpOrders]
    by_cases hc : b = t.1 ∧ sz = t.2.1
    · rw [if_pos hc, if_pos hc, mergeOpt_some_right, hc.1, hc.2]
    · rw [if_neg hc, if_neg hc, mergeOpt_none_right]

theorem ordersVal_foldl (rows : List (String × String)) :
    ∀ (acc : Orders) (b sz : String),
      ordersVal (rows.foldl processRow acc) b sz =
        mergeOpt (ordersVal acc b sz) (specVal rows b sz) := by
  induction rows with
  | nil =>
    intro acc b sz
    simp [specVal, contribs, mergeOpt_none_right]
  | cons r rs ih =>
    intro acc b sz
    rw [List.foldl_cons, ih, ordersVal_processRow, specVal_cons, mergeOpt_assoc]

/-- The fundamental aggregation lemma: the value `load_orders` stores in
bucket `(b, sz)` is exactly the sum of the row contributions to that bucket
(absent when no row contributes). -/
theorem ordersVal_load_orders (rows : List (String × String)) (b sz : String) :
    ordersVal (load_orders rows) b sz = specVal rows b sz := by
  unfold load_orders
  rw [ordersVal_foldl]
  simp [ordersVal, mergeOpt_none_left]

theorem rowKey_quantity (row : String × String) (t : String × String × Int)
    (h : rowKey row = some t) : parsePyInt (pyStrip row.2) = some t.2.2 := by
  unfold rowKey at h
  simp only at h
  split at h
  · exact absurd h (by simp)
  · cases hp : parsePyInt (pyStrip row.2) with
    | none => rw [hp] at h; exact absurd h (by simp)
    | some q =>
      rw [hp] at h
      simp only at h
      cases hs : (extract_base_name_and_size (pyStrip row.1)).2 with
      | none =>
        rw [hs] at h
        cases h
        rfl
      | some size =>
        rw [hs] at h
        simp only at h
        by_cases hsz : size = ""
        · rw [if_neg (by simp [hsz])] at h
          cases h
          rfl
        · rw [if_pos hsz] at h
          cases h
          rfl

theorem mem_contribs (rows : List (String × String)) (b sz : String) (x : Int)
    (hx : x ∈ contribs rows b sz) :
    ∃ r ∈ rows, ∃ t, rowKey r = some t ∧ t.2.2 = x := by
  unfold contribs at hx
  rw [List.mem_filterMap] at hx
  obtain ⟨t, ht, hg⟩ := hx
  rw [List.mem_filterMap] at ht
  obtain ⟨r, hr, hk⟩ := ht
  refine ⟨r, hr, t, hk, ?_⟩
  by_cases hc : b = t.1 ∧ sz = t.2.1
  · rw [if_pos hc] at hg
    exact Option.some_inj.mp hg
  · rw [if_neg hc] at hg
    exact absurd hg (by simp)

/-! ## The claims -/

/-- C1.  The claim expects the suffix " - A2" to be detected as a size token
and the mapping to be `{"Gi": {"A2": 5}, "Rashguard": {no-size: 5}}`.  It is
false on the code: "A2" does not match the size grammar `\d*X*[SML]+` (its
last character is a digit, not one of S/M/L), so "Gi - A2" is not split, and
the aggregation holds no "Gi" key at all. -/
theorem c1_counterexample :
    extract_base_name_and_size "Gi - A2" = ("Gi - A2", none) ∧
    ordersVal (load_orders [("Gi - A2", "3"), ("Gi - A2", "2"), ("Rashguard", "5")])
      "Gi" "A2" = none :=
  ⟨by decide, by decide⟩

/-- C1 (amended).  Aggregating exactly the rows
`[("Gi - A2", "3"), ("Gi - A2", "2"), ("Rashguard", "5")]` yields
`{"Gi - A2": {no-size: 5}, "Rashguard": {no-size: 5}}`: the suffix " - A2" is
NOT a size token (A2 fails the grammar), so the two Gi rows are summed under
the full name "Gi - A2" in the no-size bucket (`'N/A'`). -/
theorem c1_amended :
    load_orders [("Gi - A2", "3"), ("Gi - A2", "2"), ("Rashguard", "5")]
      = [("Gi - A2", [("N/A", 5)]), ("Rashguard", [("N/A", 5)])] := by
  decide

/-- C2.  The claim says the emitted data-row order for the buckets
`{"S":1,"M":1,no-size:1,"XL":1,"2XL":1}` is S, M, XL, 2XL, no-size.  It is
false on the code: the secondary sort key is lexicographic string order and
"M" < "S", so M comes before S. -/
theorem c2_counterexample :
    sizeTableRows [("S", 1), ("M", 1), ("N/A", 1), ("XL", 1), ("2XL", 1)] ≠
      [["Size", "Quantity"], ["S", "1"], ["M", "1"], ["XL", "1"], ["2XL", "1"],
        ["No Size", "1"], ["TOTAL", "5"]] := by
  decide

/-- C2 (amended).  For a product whose size buckets are exactly
`{"S":1,"M":1,no-size:1,"XL":1,"2XL":1}`, the composer emits the data rows in
the order M, S, XL, 2XL, no-size (length ascending, ties broken
lexicographically, so "M" precedes "S"; the no-size row last). -/
theorem c2_amended :
    sizeTableRows [("S", 1), ("M", 1), ("N/A", 1), ("XL", 1), ("2XL", 1)] =
      [["Size", "Quantity"], ["M", "1"], ["S", "1"], ["XL", "1"], ["2XL", "1"],
        ["No Size", "1"], ["TOTAL", "5"]] := by
  decide

/-- C3.  The claim says every stored quantity is a non-negative integer and
that rows failing to parse as a positive or non-negative integer are skipped.
It is false on the code: Python's `int` accepts a leading minus sign, so the
row `("Belt", "-3")` is NOT skipped and stores the negative sum -3. -/
theorem c3_counterexample :
    ordersVal (load_orders [("Belt", "-3")]) "Belt" "N/A" = some (-3) := by
  decide

/-- C3 (amended).  Every quantity stored by the aggregator is an integer; it
is non-negative whenever every row quantity that parses is non-negative
(rows whose quantity text does not parse as an integer contribute nothing,
but rows parsing as negative integers are accumulated, not skipped). -/
theorem c3_amended (rows : List (String × String))
    (hpos : ∀ r ∈ rows, ∀ q : Int, parsePyInt (pyStrip r.2) = some q → 0 ≤ q) :
    ∀ b sz q, ordersVal (load_orders rows) b sz = some q → 0 ≤ q := by
  intro b sz q h
  rw [ordersVal_load_orders] at h
  unfold specVal at h
  by_cases hc : contribs rows b sz = []
  · rw [if_pos hc] at h
    exact absurd h (by simp)
  · rw [if_neg hc] at h
    rw [← Option.some_inj.mp h]
    apply List.sum_nonneg
    intro x hx
    obtain ⟨r, hr, t, ht, hx'⟩ := mem_contribs rows b sz x hx
    exact hx' ▸ hpos r hr t.2.2 (rowKey_quantity r t ht)

/-- Witness for C3 (amended) at the single row `("Belt", "2")`. -/
theorem c3_witness :
    ordersVal (load_orders [("Belt", "2")]) "Belt" "N/A" = some 2 ∧ (0 : Int) ≤ 2 := by
  refine ⟨by decide, c3_amended [("Belt", "2")] ?_ "Belt" "N/A" 2 (by decide)⟩
  intro r hr q hq
  simp only [List.mem_singleton] at hr
  subst hr
  rw [show parsePyInt (pyStrip "2") = some 2 from by decide] at hq
  injection hq with h
  subst h
  decide

/-- C8.  The aggregator never fails on a malformed row: a row whose trimmed
name or trimmed quantity text is empty, or whose quantity text does not parse
as an integer, is dropped, and the result equals the aggregation of the
remaining well-formed rows alone (`rowKey r = some _` is precisely
"row r is kept"); in particular `[("Belt","three"),("Belt","2")]` aggregates
to `{"Belt": {no-size: 2}}`. -/
theorem c8_malformed_rows_dropped :
    (∀ rows : List (String × String),
        load_orders rows = load_orders (rows.filter (fun r => (rowKey r).isSome))) ∧
    load_orders [("Belt", "three"), ("Belt", "2")] = [("Belt", [("N/A", 2)])] := by
  refine ⟨fun rows => ?_, by decide⟩
  unfold load_orders
  suffices h : ∀ acc : Orders,
      rows.foldl processRow acc =
        (rows.filter fun r => (rowKey r).isSome).foldl processRow acc from h []
  induction rows with
  | nil => intro _; rfl
  | cons r rs ih =>
    intro acc
    rw [List.filter_cons]
    cases hk : rowKey r with
    | none =>
      have hpr : processRow acc r = acc := by rw [processRow_eq_rowKey, hk]
      simp only [hk, Option.isSome_none]
      rw [if_neg (by simp), List.foldl_cons, hpr]
      exact ih acc
    | some t =>
      simp only [hk, Option.isSome_some, if_true]
      rw [List.foldl_cons, List.foldl_cons]
      exact ih _

/-- C9.  Aggregation is commutative and associative: a permutation of the
rows yields an equal mapping (pointwise on every (base, size) bucket,
absent buckets included), and aggregating a concatenation of two batches
equals the pointwise merge (sum, with absent = no contribution) of the two
batch aggregations. -/
theorem c9_perm_append :
    (∀ rows₁ rows₂ : List (String × String), rows₁.Perm rows₂ →
        ∀ b sz, ordersVal (load_orders rows₁) b sz = ordersVal (load_orders rows₂) b sz) ∧
    (∀ xs ys : List (String × String), ∀ b sz,
        ordersVal (load_orders (xs ++ ys)) b sz =
          mergeOpt (ordersVal (load_orders xs) b sz) (ordersVal (load_orders ys) b sz)) := by
  constructor
  · intro r1 r2 hp b sz
    rw [ordersVal_load_orders, ordersVal_load_orders]
    unfold specVal
    have hperm : (contribs r1 b sz).Perm (contribs r2 b sz) :=
      (hp.filterMap rowKey).filterMap _
    by_cases h1 : contribs r1 b sz = []
    · have h2 : contribs r2 b sz = [] := by
        rw [h1] at hperm
        exact hperm.symm.eq_nil
      rw [if_pos h1, if_pos h2]
    · have h2 : contribs r2 b sz ≠ [] := fun hh => h1 (by rw [hh] at hperm; exact hperm.eq_nil)
      rw [if_neg h1, if_neg h2, hperm.sum_eq]
  · intro xs ys b sz
    rw [ordersVal_load_orders, ordersVal_load_orders, ordersVal_load_orders]
    unfold specVal
    have happ : contribs (xs ++ ys) b sz = contribs xs b sz ++ contribs ys b sz := by
      unfold contribs
      rw [List.filterMap_append, List.filterMap_append]
    rw [happ]
    by_cases h1 : contribs xs b sz = [] <;> by_cases h2 : contribs ys b sz = []
    · simp [h1, h2, mergeOpt]
    · simp [h1, h2, mergeOpt]
    · simp [h1, h2, mergeOpt, List.sum_append]
    · simp [h1, h2, mergeOpt, List.sum_append]

/-- Witness for C9 at the concrete swap `[Belt, Gi - S] ~ [Gi - S, Belt]`. -/
theorem c9_witness :
    ordersVal (load_orders [("Belt", "1"), ("Gi - S", "2")]) "Gi" "S" =
      ordersVal (load_orders [("Gi - S", "2"), ("Belt", "1")]) "Gi" "S" :=
  c9_perm_append.1 _ _ (List.Perm.swap _ _ _) "Gi" "S"

/-- C4.  The claim says composition completes even when a contact field is
absent from the record.  It is false on the code: every field except the
ship-to city is read with `dict[...]`, which raises `KeyError` on an absent
key; here the issuer record lacks only "fax" (all other blocks are complete)
and composition fails. -/
theorem c4_counterexample :
    generate_pdf_po [] [("name", "N"), ("address", "A"), ("city", "C"), ("phone", "P")]
      [("name", "V"), ("website", ""), ("address", "A"), ("city", "C"), ("phone", "P")]
      [("attn", "T"), ("company", "C"), ("address", "A"), ("city", ""), ("phone", "P")]
      LogoSrc.absent "d" "t" = none := by
  decide

/-- C4 (amended).  The composer completes and returns a full document for
every issuer, vendor and ship-to block in which each field the composer reads
is present (issuer: name, address, city, phone, fax; vendor: name, website,
address, city, phone; ship-to: attn, company, address, phone; the ship-to
city alone may be absent).  Present fields may hold any string, the empty
string included — empty values are rendered blank or omitted, never an
error; a block missing one of the read fields makes composition fail. -/
theorem c4_amended (pd : List (String × SizeMap)) (ci vi si : ContactInfo)
    (lg : LogoSrc) (d t : String)
    (h1 : (getField ci "name").isSome) (h2 : (getField ci "address").isSome)
    (h3 : (getField ci "city").isSome) (h4 : (getField ci "phone").isSome)
    (h5 : (getField ci "fax").isSome)
    (h6 : (getField vi "name").isSome) (h7 : (getField vi "website").isSome)
    (h8 : (getField vi "address").isSome) (h9 : (getField vi "city").isSome)
    (h10 : (getField vi "phone").isSome)
    (h11 : (getField si "attn").isSome) (h12 : (getField si "company").isSome)
    (h13 : (getField si "address").isSome) (h14 : (getField si "phone").isSome) :
    (generate_pdf_po pd ci vi si lg d t).isSome := by
  obtain ⟨v1, e1⟩ := Option.isSome_iff_exists.mp h1
  obtain ⟨v2, e2⟩ := Option.isSome_iff_exists.mp h2
  obtain ⟨v3, e3⟩ := Option.isSome_iff_exists.mp h3
  obtain ⟨v4, e4⟩ := Option.isSome_iff_exists.mp h4
  obtain ⟨v5, e5⟩ := Option.isSome_iff_exists.mp h5
  obtain ⟨v6, e6⟩ := Option.isSome_iff_exists.mp h6
  obtain ⟨v7, e7⟩ := Option.isSome_iff_exists.mp h7
  obtain ⟨v8, e8⟩ := Option.isSome_iff_exists.mp h8
  obtain ⟨v9, e9⟩ := Option.isSome_iff_exists.mp h9
  obtain ⟨v10, e10⟩ := Option.isSome_iff_exists.mp h10
  obtain ⟨v11, e11⟩ := Option.isSome_iff_exists.mp h11
  obtain ⟨v12, e12⟩ := Option.isSome_iff_exists.mp h12
  obtain ⟨v13, e13⟩ := Option.isSome_iff_exists.mp h13
  obtain ⟨v14, e14⟩ := Option.isSome_iff_exists.mp h14
  simp [generate_pdf_po, companyText, vendorBlock, shipToBlock,
    e1, e2, e3, e4, e5, e6, e7, e8, e9, e10, e11, e12, e13, e14]

/-- Witness for C4 (amended): all read fields present, every value the
empty string. -/
theorem c4_witness :
    (generate_pdf_po []
      [("name", ""), ("address", ""), ("city", ""), ("phone", ""), ("fax", "")]
      [("name", ""), ("website", ""), ("address", ""), ("city", ""), ("phone", "")]
      [("attn", ""), ("company", ""), ("address", ""), ("phone", "")]
      LogoSrc.absent "d" "t").isSome :=
  c4_amended _ _ _ _ _ _ _ (by decide) (by decide) (by decide) (by decide) (by decide)
    (by decide) (by decide) (by decide) (by decide) (by decide)
    (by decide) (by decide) (by decide) (by decide)

/-- C7.  In the Vendor and Ship To panels, an optional field holding the
empty string produces no line at all: a vendor block whose website is "" is
exactly the four lines name, address, city, phone (no blank website line),
and a ship-to block whose city is "" (or absent) is exactly the four lines
attn, company, address, phone. -/
theorem c7_empty_optional_omitted (vi si : ContactInfo)
    (vn va vc vp sa sc sd sp : String)
    (hn : getField vi "name" = some vn) (hw : getField vi "website" = some "")
    (ha : getField vi "address" = some va) (hc : getField vi "city" = some vc)
    (hp : getField vi "phone" = some vp)
    (hat : getField si "attn" = some sa) (hco : getField si "company" = some sc)
    (had : getField si "address" = some sd) (hph : getField si "phone" = some sp)
    (hcity : getField si "city" = some "" ∨ getField si "city" = none) :
    vendorBlock vi = some ["<b>" ++ vn ++ "</b>", va, vc, "Phone: " ++ vp] ∧
    shipToBlock si = some ["Attn: " ++ sa, sc, sd, "Phone: " ++ sp] := by
  constructor
  · simp [vendorBlock, hn, hw, ha, hc, hp]
  · rcases hcity with h | h <;> simp [shipToBlock, hat, hco, had, hph, h]

/-- Witness for C7 at concrete panels with empty website and empty city. -/
theorem c7_witness :
    vendorBlock [("name", "V"), ("website", ""), ("address", "A"), ("city", "C"),
        ("phone", "P")] = some ["<b>V</b>", "A", "C", "Phone: P"] ∧
    shipToBlock [("attn", "T"), ("company", "Co"), ("address", "Ad"), ("city", ""),
        ("phone", "Ph")] = some ["Attn: T", "Co", "Ad", "Phone: Ph"] :=
  c7_empty_optional_omitted
    [("name", "V"), ("website", ""), ("address", "A"), ("city", "C"), ("phone", "P")]
    [("attn", "T"), ("company", "Co"), ("address", "Ad"), ("city", ""), ("phone", "Ph")]
    "V" "A" "C" "P" "T" "Co" "Ad" "Ph"
    (by decide) (by decide) (by decide) (by decide) (by decide)
    (by decide) (by decide) (by decide) (by decide) (Or.inl (by decide))

/-! ## Lemmas about the size-token grammar, whitespace and trimming
(used to settle the extractor contract C5). -/

/-- The characters the size-token grammar `\d*X*[SML]+` can contain. -/
def tokChar (c : Char) : Bool :=
  c.isDigit || c = 'X' || c = 'S' || c = 'M' || c = 'L'

/-- A list of whitespace characters. -/
def WsL (w : List Char) : Prop := ∀ x ∈ w, isWs x = true

theorem isSizeTok_mem (t : List Char) (h : isSizeTok t = true) :
    ∀ c ∈ t, tokChar c = true := by
  intro c hc
  simp only [isSizeTok, Bool.and_eq_true] at h
  obtain ⟨h1, h2⟩ := h
  rw [← List.takeWhile_append_dropWhile (fun c => c.isDigit) t] at hc
  rcases List.mem_append.mp hc with hd | hrest
  · have := List.mem_takeWhile_imp hd
    simp [tokChar, this]
  · rw [← List.takeWhile_append_dropWhile (fun c => decide (c = 'X'))
      (t.dropWhile (fun c => c.isDigit))] at hrest
    rcases List.mem_append.mp hrest with hx | hsml
    · have := List.mem_takeWhile_imp hx
      simp only [decide_eq_true_eq] at this
      simp [tokChar, this]
    · have := (List.all_eq_true.mp h2) c hsml
      simp only [Bool.or_eq_true, decide_eq_true_eq] at this
      rcases this with (h | h) | h <;> simp [tokChar, h]

theorem isSizeTok_ne_nil (t : List Char) (h : isSizeTok t = true) : t ≠ [] := by
  intro hnil
  subst hnil
  exact absurd h (by decide)

theorem tokChar_not_ws (c : Char) (h : tokChar c = true) : isWs c = false := by
  cases hws : isWs c
  · rfl
  · exfalso
    simp only [isWs, Bool.or_eq_true, decide_eq_true_eq] at hws
    rcases hws with ((((h1 | h1) | h1) | h1) | h1) | h1 <;> subst h1 <;>
      exact absurd h (by decide)

theorem tokChar_ne_sep (c : Char) (h : tokChar c = true) : c ≠ '-' ∧ c ≠ '/' :=
  ⟨fun hc => by subst hc; exact absurd h (by decide),
   fun hc => by subst hc; exact absurd h (by decide)⟩

theorem dropWhile_ws_append (w l : List Char) (hw : WsL w) :
    (w ++ l).dropWhile isWs = l.dropWhile isWs := by
  induction w with
  | nil => rfl
  | cons c w' ih =>
    rw [List.cons_append, List.dropWhile_cons, if_pos (hw c (List.mem_cons_self c w'))]
    exact ih (fun x hx => hw x (List.mem_cons_of_mem c hx))

theorem dropWhile_cons_not_ws (c : Char) (l : List Char) (hc : isWs c = false) :
    (c :: l).dropWhile isWs = c :: l := by
  rw [List.dropWhile_cons, if_neg (by simp [hc])]

theorem dropTrailWs_append_ws (l w : List Char) (hw : WsL w) :
    dropTrailWs (l ++ w) = dropTrailWs l := by
  unfold dropTrailWs
  rw [List.reverse_append, dropWhile_ws_append _ _ (fun x hx => hw x (List.mem_reverse.mp hx))]

theorem dropTrailWs_append_last (l : List Char) (c : Char) (hc : isWs c = false) :
    dropTrailWs (l ++ [c]) = l ++ [c] := by
  unfold dropTrailWs
  rw [List.reverse_append, List.reverse_singleton, List.singleton_append,
    dropWhile_cons_not_ws c l.reverse hc, List.reverse_cons, List.reverse_reverse]

theorem dropTrailWs_eq_nil (w : List Char) (hw : WsL w) : dropTrailWs w = [] := by
  unfold dropTrailWs
  rw [List.dropWhile_eq_nil_iff.mpr (fun x hx => by
    simp [hw x (List.mem_reverse.mp hx)])]
  rfl

theorem dropTrailWs_tok (tok w : List Char) (ht : isSizeTok tok = true) (hw : WsL w) :
    dropTrailWs (tok ++ w) = tok := by
  rw [dropTrailWs_append_ws tok w hw]
  obtain ⟨l', c, hlc⟩ : ∃ l' c, tok = l' ++ [c] := by
    rcases List.eq_nil_or_concat tok with h | ⟨l', c, h⟩
    · exact absurd h (isSizeTok_ne_nil tok ht)
    · exact ⟨l', c, by simpa [List.concat_eq_append] using h⟩
  have hc : tokChar c = true := isSizeTok_mem tok ht c (by simp [hlc])
  rw [hlc]
  exact dropTrailWs_append_last l' c (tokChar_not_ws c hc)

theorem trimChars_ws_tok_ws (w2 tok w3 : List Char) (hw2 : WsL w2) (hw3 : WsL w3)
    (ht : isSizeTok tok = true) : trimChars (w2 ++ (tok ++ w3)) = tok := by
  unfold trimChars
  rw [dropWhile_ws_append w2 (tok ++ w3) hw2]
  obtain ⟨c, t', hct⟩ : ∃ c t', tok = c :: t' := by
    cases h : tok with
    | nil => exact absurd h (isSizeTok_ne_nil tok ht)
    | cons c t' => exact ⟨c, t', rfl⟩
  have hc : tokChar c = true := isSizeTok_mem tok ht c (by simp [hct])
  rw [hct, List.cons_append, dropWhile_cons_not_ws _ _ (tokChar_not_ws c hc),
    ← List.cons_append, ← hct]
  exact dropTrailWs_tok tok w3 ht hw3

theorem trimChars_append_ws (l w : List Char) (hw : WsL w) :
    trimChars (l ++ w) = trimChars l := by
  unfold trimChars
  rw [List.dropWhile_append]
  cases hd : (l.dropWhile isWs).isEmpty
  · simp only [Bool.false_eq_true, if_false]
    exact dropTrailWs_append_ws _ w hw
  · simp only [if_true]
    rw [List.isEmpty_iff] at hd
    rw [hd]
    refine (dropTrailWs_eq_nil _ ?_).trans (dropTrailWs_eq_nil _ ?_).symm
    · intro x hx
      exact hw x ((List.dropWhile_sublist isWs).subset hx)
    · intro x hx
      exact absurd hx (by simp [hd])

theorem trimChars_decomp (l : List Char) :
    ∃ w1 w2, WsL w1 ∧ WsL w2 ∧ l = w1 ++ (trimChars l ++ w2) := by
  refine ⟨l.takeWhile isWs, ((l.dropWhile isWs).reverse.takeWhile isWs).reverse,
    fun x hx => List.mem_takeWhile_imp hx,
    fun x hx => List.mem_takeWhile_imp (List.mem_reverse.mp hx), ?_⟩
  unfold trimChars dropTrailWs
  conv_lhs => rw [← List.takeWhile_append_dropWhile isWs l]
  congr 1
  conv_lhs => rw [← List.reverse_reverse (l.dropWhile isWs),
    ← List.takeWhile_append_dropWhile isWs (l.dropWhile isWs).reverse]
  rw [List.reverse_append]

theorem mem_trimChars (x : Char) (m : List Char) (hx : isWs x = false) (hm : x ∈ m) :
    x ∈ trimChars m := by
  have step : ∀ m' : List Char, x ∈ m' → x ∈ m'.dropWhile isWs := by
    intro m' hm'
    rw [← List.takeWhile_append_dropWhile isWs m'] at hm'
    rcases List.mem_append.mp hm' with h | h
    · exact absurd (List.mem_takeWhile_imp h) (by simp [hx])
    · exact h
  unfold trimChars dropTrailWs
  rw [List.mem_reverse]
  exact step _ (List.mem_reverse.mpr (step m hm))

theorem findSepMatch_cons_pos (sep c : Char) (rest : List Char)
    (hc : c = sep) (ht : isSizeTok (trimChars rest) = true) :
    findSepMatch sep (c :: rest) = some ([], trimChars rest) := by
  unfold findSepMatch
  rw [if_pos (by simp [hc, ht])]

theorem findSepMatch_cons_neg (sep c : Char) (rest : List Char)
    (h : ¬(c = sep ∧ isSizeTok (trimChars rest) = true)) :
    findSepMatch sep (c :: rest) =
      match findSepMatch sep rest with
      | some (pre, tok) => some (c :: pre, tok)
      | none => none := by
  conv_lhs => unfold findSepMatch
  rw [if_neg (by simp only [Bool.and_eq_true, decide_eq_true_eq]; exact h)]

theorem findSepMatch_sound (sep : Char) :
    ∀ l pre tok, findSepMatch sep l = some (pre, tok) →
      ∃ rest, l = pre ++ sep :: rest ∧ trimChars rest = tok ∧ isSizeTok tok = true := by
  intro l
  induction l with
  | nil =>
    intro pre tok h
    exact absurd h (by simp [findSepMatch])
  | cons c rest ih =>
    intro pre tok h
    by_cases hcond : c = sep ∧ isSizeTok (trimChars rest) = true
    · rw [findSepMatch_cons_pos sep c rest hcond.1 hcond.2] at h
      injection h with h'
      injection h' with h1 h2
      subst h1
      subst h2
      exact ⟨rest, by rw [hcond.1, List.nil_append], rfl, hcond.2⟩
    · rw [findSepMatch_cons_neg sep c rest hcond] at h
      cases hf : findSepMatch sep rest with
      | none =>
        rw [hf] at h
        exact absurd h (by simp)
      | some pt =>
        obtain ⟨pre', tok'⟩ := pt
        rw [hf] at h
        simp only at h
        injection h with h'
        injection h' with h1 h2
        subst h1
        subst h2
        obtain ⟨rest', hr1, hr2, hr3⟩ := ih pre' tok' hf
        exact ⟨rest', by rw [hr1, List.cons_append], hr2, hr3⟩

theorem findSepMatch_prefix (sep : Char) (hsw : isWs sep = false) (hst : tokChar sep = false)
    (rrest : List Char) (hval : isSizeTok (trimChars rrest) = true) :
    ∀ p, findSepMatch sep (p ++ sep :: rrest) = some (p, trimChars rrest) := by
  intro p
  induction p with
  | nil =>
    rw [List.nil_append]
    exact findSepMatch_cons_pos sep sep rrest rfl hval
  | cons c p' ih =>
    rw [List.cons_append]
    have hinv : ¬(c = sep ∧ isSizeTok (trimChars (p' ++ sep :: rrest)) = true) := by
      rintro ⟨_, htk⟩
      have hmem : sep ∈ trimChars (p' ++ sep :: rrest) :=
        mem_trimChars sep _ hsw (by simp)
      exact absurd (isSizeTok_mem _ htk sep hmem) (by simp [hst])
    rw [findSepMatch_cons_neg sep c _ hinv, ih]

theorem findSepMatch_not_mem (sep : Char) :
    ∀ l, sep ∉ l → findSepMatch sep l = none := by
  intro l
  induction l with
  | nil => intro _; rfl
  | cons c rest ih =>
    intro h
    have hc : c ≠ sep := fun hh => h (hh ▸ List.mem_cons_self c rest)
    rw [findSepMatch_cons_neg sep c rest (fun hh => hc hh.1),
      ih (fun hh => h (List.mem_cons_of_mem c hh))]

theorem findSepMatch_dash_before_slash (rrest : List Char) (hno : '-' ∉ rrest) :
    ∀ p, findSepMatch '-' (p ++ '/' :: rrest) = none := by
  intro p
  induction p with
  | nil =>
    rw [List.nil_append,
      findSepMatch_cons_neg '-' '/' rrest (fun hh => absurd hh.1 (by decide)),
      findSepMatch_not_mem '-' rrest hno]
  | cons c p' ih =>
    rw [List.cons_append]
    have hinv : ¬(c = '-' ∧ isSizeTok (trimChars (p' ++ '/' :: rrest)) = true) := by
      rintro ⟨_, htk⟩
      have hmem : '/' ∈ trimChars (p' ++ '/' :: rrest) :=
        mem_trimChars '/' _ (by decide) (by simp)
      exact absurd (isSizeTok_mem _ htk '/' hmem) (by decide)
    rw [findSepMatch_cons_neg '-' c _ hinv, ih]

theorem extractCore_of_form (base w1 w2 tok w3 : List Char) (c : Char)
    (hc : c = '-' ∨ c = '/') (hw1 : WsL w1) (hw2 : WsL w2) (hw3 : WsL w3)
    (ht : isSizeTok tok = true) :
    extractCore (base ++ w1 ++ c :: (w2 ++ (tok ++ w3))) = (trimChars base, some tok) := by
  have hval : isSizeTok (trimChars (w2 ++ (tok ++ w3))) = true := by
    rw [trimChars_ws_tok_ws w2 tok w3 hw2 hw3 ht]
    exact ht
  rcases hc with hc | hc
  · subst hc
    have h1 := findSepMatch_prefix '-' (by decide) (by decide) _ hval (base ++ w1)
    unfold extractCore
    rw [h1]
    simp only
    rw [trimChars_ws_tok_ws w2 tok w3 hw2 hw3 ht, trimChars_append_ws base w1 hw1]
  · subst hc
    have h0 : '-' ∉ w2 ++ (tok ++ w3) := by
      intro hm
      rcases List.mem_append.mp hm with h | h
      · exact absurd (hw2 _ h) (by decide)
      · rcases List.mem_append.mp h with h | h
        · exact absurd (isSizeTok_mem tok ht _ h) (by decide)
        · exact absurd (hw3 _ h) (by decide)
    have h1 := findSepMatch_dash_before_slash _ h0 (base ++ w1)
    have h2 := findSepMatch_prefix '/' (by decide) (by decide) _ hval (base ++ w1)
    unfold extractCore
    rw [h1, h2]
    simp only
    rw [trimChars_ws_tok_ws w2 tok w3 hw2 hw3 ht, trimChars_append_ws base w1 hw1]

/-- Does `l` decompose as `base ++ sep ++ tok ++ trailing-whitespace` with `tok`
matching the size grammar?  This is the claim's literal reading of "an item
name of the form `<base><separator><token>`" for a fixed separator text `sep`
(" - " or " / "): the token follows the separator immediately and only
trailing whitespace may follow the token. -/
def hasSpecSuffix (sep : List Char) (l : List Char) : Bool :=
  (List.range (l.length + 1)).any (fun i =>
    sep.isPrefixOf (l.drop i) && isSizeTok (dropTrailWs ((l.drop i).drop sep.length)))

/-- Is the item name of the form the claim describes, with separator " - "
or " / " (spaces included)? -/
def claimedFormC5 (l : List Char) : Bool :=
  hasSpecSuffix (' ' :: '-' :: [' ']) l || hasSpecSuffix (' ' :: '/' :: [' ']) l

/-- C5.  The claim restricts the separator to " - " or " / " (with single
spaces) and asserts every other name is returned unchanged.  It is false on
the code: the regex separator is `\s*-\s*` — the whitespace is optional — so
"Gi-S", which is NOT of the claimed form, is nevertheless split into
("Gi", "S"). -/
theorem c5_counterexample :
    claimedFormC5 "Gi-S".data = false ∧
    extract_base_name_and_size "Gi-S" = ("Gi", some "S") :=
  ⟨by decide, by decide⟩

/-- C5 (amended).  The separator is a hyphen or slash with OPTIONAL whitespace
on both sides (regex `\s*-\s*` / `\s*/\s*`).  First part: for every item name
of the form `<base><ws₁><sep><ws₂><token><ws₃>` with the token matching the
size grammar, extract returns (`<base>` trimmed, token).  Second part
(completeness): whenever extract reports a size, the name is of exactly that
form, the base returned being the text before the separator, trimmed. -/
theorem c5_amended :
    (∀ (base w1 w2 tok w3 : List Char) (c : Char),
        (c = '-' ∨ c = '/') → WsL w1 → WsL w2 → WsL w3 → isSizeTok tok = true →
        extract_base_name_and_size ⟨base ++ w1 ++ c :: (w2 ++ (tok ++ w3))⟩ =
          (⟨trimChars base⟩, some ⟨tok⟩)) ∧
    (∀ (s bout t : String),
        extract_base_name_and_size s = (bout, some t) →
        ∃ (pre w2 w3 : List Char) (c : Char), (c = '-' ∨ c = '/') ∧ WsL w2 ∧ WsL w3 ∧
          isSizeTok t.data = true ∧ s.data = pre ++ c :: (w2 ++ (t.data ++ w3)) ∧
          bout = ⟨trimChars pre⟩) := by
  constructor
  · intro base w1 w2 tok w3 c hc hw1 hw2 hw3 ht
    have hcore := extractCore_of_form base w1 w2 tok w3 c hc hw1 hw2 hw3 ht
    unfold extract_base_name_and_size
    rw [show (String.mk (base ++ w1 ++ c :: (w2 ++ (tok ++ w3)))).data
        = base ++ w1 ++ c :: (w2 ++ (tok ++ w3)) from rfl, hcore]
  · intro s bout t h
    unfold extract_base_name_and_size extractCore at h
    cases hf1 : findSepMatch '-' s.data with
    | some pt =>
      obtain ⟨pre, tok⟩ := pt
      rw [hf1] at h
      simp only [Prod.mk.injEq, Option.some_inj] at h
      obtain ⟨hb, ht'⟩ := h
      obtain ⟨rest, hsplit, htrim, htok⟩ := findSepMatch_sound '-' s.data pre tok hf1
      obtain ⟨w2, w3, hw2, hw3, hdecomp⟩ := trimChars_decomp rest
      have htd : t.data = tok := by rw [← ht']
      have hrest : rest = w2 ++ (t.data ++ w3) := by
        rw [htd, ← htrim]
        exact hdecomp
      exact ⟨pre, w2, w3, '-', Or.inl rfl, hw2, hw3, by rw [htd]; exact htok,
        by rw [hsplit, hrest], hb.symm⟩
    | none =>
      rw [hf1] at h
      cases hf2 : findSepMatch '/' s.data with
      | none =>
        rw [hf2] at h
        exact absurd h (by simp)
      | some pt =>
        obtain ⟨pre, tok⟩ := pt
        rw [hf2] at h
        simp only [Prod.mk.injEq, Option.some_inj] at h
        obtain ⟨hb, ht'⟩ := h
        obtain ⟨rest, hsplit, htrim, htok⟩ := findSepMatch_sound '/' s.data pre tok hf2
        obtain ⟨w2, w3, hw2, hw3, hdecomp⟩ := trimChars_decomp rest
        have htd : t.data = tok := by rw [← ht']
        have hrest : rest = w2 ++ (t.data ++ w3) := by
          rw [htd, ← htrim]
          exact hdecomp
        exact ⟨pre, w2, w3, '/', Or.inr rfl, hw2, hw3, by rw [htd]; exact htok,
          by rw [hsplit, hrest], hb.symm⟩

/-- Witness for C5 (amended) at the name "Gi - 2XL"
(base "Gi", single-space whitespace runs, token "2XL"). -/
theorem c5_witness :
    extract_base_name_and_size ⟨"Gi".data ++ [' '] ++ '-' :: ([' '] ++ ("2XL".data ++ []))⟩ =
      (⟨trimChars "Gi".data⟩, some ⟨"2XL".data⟩) :=
  c5_amended.1 "Gi".data [' '] [' '] "2XL".data [] '-' (Or.inl rfl)
    (by intro x hx; rw [List.mem_singleton] at hx; subst hx; decide)
    (by intro x hx; rw [List.mem_singleton] at hx; subst hx; decide)
    (fun x hx => absurd hx (List.not_mem_nil x))
    (by decide)

/-- The row order C6 describes, on size-bucket keys: the sentinel sorts after
everything, and two real tokens sort by length then lexicographically. -/
def claimOrder (a b : String) : Prop :=
  (a = "N/A" → b = "N/A") ∧
  (a ≠ "N/A" → b ≠ "N/A" →
    a.length < b.length ∨ (a.length = b.length ∧ charListLt b.data a.data = false))

set_option maxRecDepth 40000 in
/-- C6.  The claim says the no-size sentinel sorts last regardless of the
literal length of any token present.  It is false on the code: the sentinel
sorts with key 999, so a 1000-character size token (reachable, e.g. from the
item name "Gi - SSS…S") sorts AFTER the sentinel — the table lists the
no-size row before that token's row, not last. -/
theorem c6_counterexample :
    sizeTableRows [("N/A", 1), (⟨List.replicate 1000 'S'⟩, 1)] =
      [["Size", "Quantity"], ["No Size", "1"], [⟨List.replicate 1000 'S'⟩, "1"],
        ["TOTAL", "2"]] ∧
    sizeTableRows [("N/A", 1), (⟨List.replicate 1000 'S'⟩, 1)] ≠
      [["Size", "Quantity"], [⟨List.replicate 1000 'S'⟩, "1"], ["No Size", "1"],
        ["TOTAL", "2"]] :=
  ⟨by decide, by decide⟩

/-- C6 (amended).  For every product and every finite set of size buckets in
which each real size token is shorter than 999 characters (the sentinel's
stand-in sort length), the rows of the size/quantity table are the buckets
sorted with primary key token length, secondary key lexicographic string
order, and the no-size sentinel last. -/
theorem c6_amended (m : SizeMap)
    (hshort : ∀ p ∈ m, p.1 ≠ "N/A" → p.1.length < 999) :
    (sortSizes m).Perm m ∧
    (sortSizes m).Pairwise (fun x y => claimOrder x.1 y.1) := by
  refine ⟨List.perm_insertionSort rowLE m, ?_⟩
  have hsorted : (sortSizes m).Pairwise rowLE := List.sorted_insertionSort rowLE m
  have hmem : ∀ x ∈ sortSizes m, x ∈ m :=
    fun x hx => (List.perm_insertionSort rowLE m).subset hx
  refine hsorted.imp_of_mem ?_
  intro x y hx hy hr
  have hxs : x.1 ≠ "N/A" → x.1.length < 999 := hshort x (hmem x hx)
  have hys : y.1 ≠ "N/A" → y.1.length < 999 := hshort y (hmem y hy)
  unfold rowLE keyLEb sizeSortKey at hr
  simp only [Bool.or_eq_true, Bool.and_eq_true, Nat.blt_eq, Nat.beq_eq,
    Bool.not_eq_true'] at hr
  constructor
  · intro hxa
    by_contra hyb
    rw [if_pos hxa, if_neg hyb] at hr
    have := hys hyb
    rcases hr with h | ⟨h, _⟩ <;> omega
  · intro hxa hyb
    rw [if_neg hxa, if_neg hyb] at hr
    rcases hr with h | ⟨h1, h2⟩
    · exact Or.inl h
    · exact Or.inr ⟨h1, by simpa [pyStrLt] using h2⟩

/-- Witness for C6 (amended) at the buckets `{"S": 1, no-size: 1}`. -/
theorem c6_witness :
    (sortSizes [("S", 1), ("N/A", 1)]).Perm [("S", 1), ("N/A", 1)] ∧
    (sortSizes [("S", 1), ("N/A", 1)]).Pairwise (fun x y => claimOrder x.1 y.1) :=
  c6_amended [("S", 1), ("N/A", 1)] (by decide)

/-- C10.  The composer is deterministic: with the two timestamp-derived
fields (the date and the P.O. number, the only places the clock reaches)
erased, two compositions of identical inputs under different clock readings
produce identical block structure and text content. -/
theorem c10_deterministic (pd : List (String × SizeMap)) (ci vi si : ContactInfo)
    (lg : LogoSrc) (d1 t1 d2 t2 : String) :
    (generate_pdf_po pd ci vi si lg d1 t1).map eraseTimestamps =
      (generate_pdf_po pd ci vi si lg d2 t2).map eraseTimestamps := by
  unfold generate_pdf_po
  cases companyText ci <;> cases vendorBlock vi <;> cases shipToBlock si <;>
    simp [eraseTimestamps]

end POGen
